import Mathlib

/-
Verification of moq-cpp: a C++ client library for Media-over-QUIC.
Shallow embedding of the C++ sources under a faithful translation:
pure functions become Lean functions, stateful methods become explicit
state-passing functions, machine integers become Nat with explicit
truncation where the C code truncates, and fallible paths return Option.
-/

namespace MoqCpp

/-! ## Group producer and consumer (src/cpp/src/moq_group.cpp)

`GroupProducer` holds a `finished_` flag and an opaque FFI `handle_`.
`GroupConsumer::readFrame` calls the FFI reader and yields a frame only when
the FFI reports success with a non-null pointer and `data_len > 0`.
The FFI channel itself (the Rust side of `moq_group_producer_write_frame` /
`moq_group_consumer_read_frame`) is not part of the C++ sources; it is
modelled from the spec as an ordered queue of frames: writing appends a
frame (zero-length frames are allowed per the spec) and reading yields the
frames in write order. -/

/-- State of a `GroupProducer`: the `finished_` flag and whether `handle_`
is non-null. -/
structure GroupProducerSt where
  finished : Bool
  handle : Bool
  deriving DecidableEq, Repr

/-- Modelled from the spec: the FFI frame channel behind a group producer /
consumer pair (the Rust `moq-ffi` crate is not under the C++ sources).
A channel is the ordered list of frames written so far; each frame is a
byte list, and the spec allows zero-length frames. -/
abbrev Channel := List (List Nat)

/-- `GroupProducer::writeFrame(const std::vector<uint8_t>&)`
(src/cpp/src/moq_group.cpp lines 25-37): returns false writing nothing when
`finished_ || !handle_`; otherwise calls the FFI writer (spec-modelled:
appends the frame, reports success) and returns whether it succeeded. -/
def gpWriteFrame (gp : GroupProducerSt) (ch : Channel) (data : List Nat) :
    Bool × Channel :=
  if gp.finished || !gp.handle then (false, ch)
  else (true, ch ++ [data])

/-- `GroupProducer::finish` (src/cpp/src/moq_group.cpp lines 67-75): when not
yet finished, sets `finished_` and issues the FFI finish call if the handle
is non-null; the second component records whether the FFI call was issued. -/
def gpFinish (gp : GroupProducerSt) : GroupProducerSt × Bool :=
  if !gp.finished then ({ gp with finished := true }, gp.handle)
  else (gp, false)

/-- `GroupProducer::~GroupProducer` (src/cpp/src/moq_group.cpp lines 15-23):
calls `finish()` when not already finished. The second component records
whether an FFI finish call was issued. -/
def gpDestruct (gp : GroupProducerSt) : GroupProducerSt × Bool :=
  if !gp.finished then gpFinish gp
  else (gp, false)

/-- `GroupConsumer::readFrame` (src/cpp/src/moq_group.cpp lines 86-110):
returns nullopt when the handle is null; otherwise calls the FFI reader
(spec-modelled: yields the first unread frame of the channel, or end-of-group
when none is left) and yields the frame only when the result is Success with
a non-null data pointer and `data_len > 0`. -/
def gcReadFrame (handle : Bool) (ch : Channel) : Option (List Nat) :=
  if !handle then none
  else
    match ch with
    | [] => none
    | f :: _ => if f.length > 0 then some f else none

/-! ## Session (src/moq-cpp/src/moq_session.cpp)

`Session` holds an opaque FFI `handle_`; `close()` nulls it out, and each
operation first checks it for null. The FFI outcomes for a live handle are
abstracted as oracle functions, which the post-close claims never consult. -/

/-- State of a `Session`: whether `handle_` is non-null. -/
structure SessionSt where
  handle : Bool
  deriving DecidableEq, Repr

/-- `Session::close` (src/moq-cpp/src/moq_session.cpp lines 39-45): when the
handle is non-null, calls the FFI close and free and nulls the handle; the
second component counts the FFI calls issued (close + free when live). -/
def sessionClose (s : SessionSt) : SessionSt × Nat :=
  if s.handle then (⟨false⟩, 2) else (s, 0)

/-- `Session::isConnected` (src/moq-cpp/src/moq_session.cpp lines 23-28):
false when the handle is null, otherwise the FFI answer. -/
def sessionIsConnected (s : SessionSt) (ffiConnected : Bool) : Bool :=
  if !s.handle then false else ffiConnected

/-- `Session::publish` (src/moq-cpp/src/moq_session.cpp lines 48-60): false
when the handle is null or the producer is null, otherwise whether the FFI
publish succeeded. -/
def sessionPublish (s : SessionSt) (producer : Bool) (ffiOk : Bool) : Bool :=
  if !s.handle || !producer then false else ffiOk

/-- `Session::consume` (src/moq-cpp/src/moq_session.cpp lines 63-80): null
when the handle is null, otherwise the consumer the FFI produced (if any). -/
def sessionConsume (s : SessionSt) (ffiConsumer : Option Nat) : Option Nat :=
  if !s.handle then none else ffiConsumer

/-- `Session::getOriginConsumer` (src/moq-cpp/src/moq_session.cpp lines
83-99): null when the handle is null, otherwise what the FFI produced. -/
def sessionGetOriginConsumer (s : SessionSt) (ffiOrigin : Option Nat) :
    Option Nat :=
  if !s.handle then none else ffiOrigin

/-! ## Manager session loop (src/moq-mgr/src/moq-mgr-consumer-session.cc,
`Session::session_loop`, lines 181-226)

One iteration of the `while (running_)` body is a step over the loop state
`{running_, first_reconnect_attempt_, last_reconnect_attempt_}`.  Time is
measured in milliseconds of a monotone steady clock; the C++ guard
`duration_cast<seconds>(now - last).count() >= 3` truncates, which the model
writes as `(now - last) / 1000 ≥ 3`.  The environment of an iteration is the
observed clock value, whether `isAlive()` returned true, and whether a
`reconnect()` call would succeed. -/

/-- Manager configuration bit relevant to the loop:
`SessionConfig::reconnect_on_failure`. -/
structure LoopCfg where
  reconnectOnFailure : Bool
  deriving DecidableEq, Repr

/-- Loop state: `running_`, `first_reconnect_attempt_`,
`last_reconnect_attempt_` (ms). -/
structure LoopSt where
  running : Bool
  firstAttempt : Bool
  lastAttempt : Nat
  deriving DecidableEq, Repr

/-- Environment of one loop iteration: the steady-clock reading (ms), the
`isAlive()` answer, and the outcome a `reconnect()` call would have. -/
structure LoopInput where
  now : Nat
  alive : Bool
  reconnectOk : Bool
  deriving DecidableEq, Repr

/-- One iteration of `Session::session_loop` (lines 183-225).  When the
session is alive nothing happens; when dead and `reconnect_on_failure` is
unset the loop calls `stop()` and breaks (here: clears `running`); otherwise
it attempts a reconnect exactly when `first_reconnect_attempt_` is set or at
least 3 truncated seconds have passed since `last_reconnect_attempt_`, and
on an attempt it stores the clock and sets `first_reconnect_attempt_` to
the attempt's success.  The second component reports an attempt and its
outcome. -/
def sessionLoopStep (cfg : LoopCfg) (inp : LoopInput) (s : LoopSt) :
    LoopSt × Option Bool :=
  if !s.running then (s, none)
  else if inp.alive then (s, none)
  else if !cfg.reconnectOnFailure then ({ s with running := false }, none)
  else if s.firstAttempt || decide (3 ≤ (inp.now - s.lastAttempt) / 1000) then
    ({ s with lastAttempt := inp.now, firstAttempt := inp.reconnectOk },
      some inp.reconnectOk)
  else (s, none)

/-- Iterated `session_loop`: runs the step over a list of iteration
environments and collects the reconnect attempts as `(time, succeeded)`
events, returning the final loop state as well. -/
def runLoop (cfg : LoopCfg) (s : LoopSt) :
    List LoopInput → List (Nat × Bool) × LoopSt
  | [] => ([], s)
  | inp :: rest =>
    let step := sessionLoopStep cfg inp s
    let tail := runLoop cfg step.1 rest
    (match step.2 with
     | some ok => (inp.now, ok) :: tail.1
     | none => tail.1, tail.2)

/-! ## Catalog track names (start_catalog_consumer)

Each `ConsumerSession` variant hardcodes the track name its catalog
subscription uses. -/

/-- Track name subscribed by `ConsumerSession::start_catalog_consumer` in
src/moq-mgr/src/moq-mgr-consumer-session.cc line 60. -/
def catalogTrackNameMgr : String := "catalog"

/-- Track name subscribed by `ConsumerSession::start_catalog_consumer` in
src/moq-mgr-cpp-old/src/moq-mgr-consumer-session.cc line 69. -/
def catalogTrackNameOld : String := "catalog.json"

/-- Track name subscribed by `ConsumerSession::start_catalog_consumer` in
src/unnamed/part_000 line 66. -/
def catalogTrackNamePart000 : String := "catalog"

/-- Modelled from the spec: delivery of a published track to a subscription
(the session engine matching subscriptions to tracks is the Rust side, not
in the C++ sources).  A subscription for a track name receives exactly the
frames published under that same name. -/
def trackDelivers (published subscribed : String) : Bool :=
  published == subscribed

/-! ## Consumer manager catalog processing

Sources: src/unnamed/part_000 and
src/moq-mgr-cpp-old/src/moq-mgr-consumer-session.cc.  The two files share
`check_subscriptions` verbatim; they differ in `process_catalog_data`
(the old file falls back to `process_hang_catalog` when the `tracks` array
is missing, part_000 returns).

JSON values are modelled by a small AST.  `nlohmann::json` keeps object
members in a `std::map` ordered by key, so an object is represented by its
key-ordered field list; `begin().key()` on a nonempty object is its first
member's key. -/

/-- JSON value as parsed by nlohmann::json; objects carry their key-ordered
member list. -/
inductive Jval where
  | null
  | jbool (b : Bool)
  | num (n : Int)
  | str (s : String)
  | arr (elems : List Jval)
  | obj (fields : List (String × Jval))

/-- `json::contains(key)`: true only for an object with the key present. -/
def Jval.contains : Jval → String → Bool
  | .obj fs, k => fs.any (fun p => p.1 == k)
  | _, _ => false

/-- `json::operator[](key)` after a successful `contains` check: the member
value (defaulting to null when absent or not an object). -/
def Jval.get : Jval → String → Jval
  | .obj fs, k => ((fs.find? (fun p => p.1 == k)).map (fun p => p.2)).getD .null
  | _, _ => .null

/-- `json::is_array()`. -/
def Jval.isArr : Jval → Bool
  | .arr _ => true
  | _ => false

/-- `json::is_object()`. -/
def Jval.isObj : Jval → Bool
  | .obj _ => true
  | _ => false

/-- Elements of a JSON array (empty for non-arrays). -/
def Jval.arrItems : Jval → List Jval
  | .arr xs => xs
  | _ => []

/-- `AvailableTrack` (src/unnamed/part_001 lines 87-91): name, type and
priority of a track advertised by the catalog. -/
structure AvailableTrack where
  track_name : String
  type : String
  priority : Int
  deriving DecidableEq, Repr

/-- The `available_tracks_` map: an association list with unique keys,
modelling `std::unordered_map<std::string, AvailableTrack>` through its
key-based operations. -/
abbrev AvailMap := List (String × AvailableTrack)

/-- `available_tracks_[k] = v`: replace the entry for `k` or add one. -/
def insertTrack : AvailMap → String → AvailableTrack → AvailMap
  | [], k, v => [(k, v)]
  | p :: rest, k, v =>
    if p.1 == k then (k, v) :: rest else p :: insertTrack rest k v

/-- `available_tracks_.find(k)`. -/
def lookupTrack : AvailMap → String → Option AvailableTrack
  | [], _ => none
  | p :: rest, k => if p.1 == k then some p.2 else lookupTrack rest k

/-- Keys of the `available_tracks_` map. -/
def availKeys (m : AvailMap) : List String := m.map (fun p => p.1)

/-- Consumer-manager state relevant to catalog processing:
`available_tracks_`, the track names of the running workers in `consumers_`
(in vector order; the C++ vector's null entries are erased by the first pass
of every reconciliation and are not modelled), and the key list of the
`requested_subscriptions_` map, which is filled in the constructor and never
changes afterwards. -/
structure MgrState where
  available : AvailMap
  consumers : List String
  requested : List String
  deriving DecidableEq, Repr

/-- `ConsumerSession::check_subscriptions` (src/unnamed/part_000 lines
129-177 and src/moq-mgr-cpp-old/src/moq-mgr-consumer-session.cc lines
160-208, identical): first pass erases every consumer whose track is not in
`available_tracks_`; second pass walks `requested_subscriptions_` and starts
a consumer for every requested available track that has no consumer yet. -/
def checkSubscriptions (requested : List String) (avail : AvailMap)
    (consumers : List String) : List String :=
  let kept := consumers.filter (fun n => (lookupTrack avail n).isSome)
  requested.foldl
    (fun acc name =>
      if (lookupTrack avail name).isSome && !(acc.contains name) then
        acc ++ [name]
      else acc)
    kept

/-- The `for (const auto& track : tracks)` loop of `process_catalog_data`:
a valid entry (members `trackName`, `type`, `priority` present, the first
two strings, the last numeric — or boolean, which nlohmann's arithmetic
`get<int>` converts to 0/1) is stored into `available_tracks_` and followed
by a `check_subscriptions()` call; an entry with a member missing is skipped
with a status message; an entry whose member has the wrong type makes
`get<...>` throw `json::type_error`, which the enclosing catch turns into an
error notification, aborting the loop with the mutations so far kept.  The
second component reports whether the error callback fired. -/
def runTracks : List Jval → MgrState → MgrState × Bool
  | [], st => (st, false)
  | tr :: rest, st =>
    if tr.contains "trackName" && tr.contains "type" && tr.contains "priority"
    then
      match tr.get "trackName", tr.get "type", tr.get "priority" with
      | .str name, .str ty, .num pr =>
        let avail := insertTrack st.available name ⟨name, ty, pr⟩
        let cons := checkSubscriptions st.requested avail st.consumers
        runTracks rest ⟨avail, cons, st.requested⟩
      | .str name, .str ty, .jbool b =>
        let avail := insertTrack st.available name
          ⟨name, ty, if b then 1 else 0⟩
        let cons := checkSubscriptions st.requested avail st.consumers
        runTracks rest ⟨avail, cons, st.requested⟩
      | _, _, _ => (st, true)
    else runTracks rest st

/-- `ConsumerSession::process_catalog_data` (src/unnamed/part_000 lines
82-127).  `none` input models a payload `json::parse` rejects (the thrown
`parse_error` is caught and reported).  A parsed document without a `tracks`
array member is reported and left alone.  Otherwise `available_tracks_` is
cleared and the track loop runs.  The second component reports whether the
error callback fired. -/
def processCatalogData (input : Option Jval) (st : MgrState) :
    MgrState × Bool :=
  match input with
  | none => (st, true)
  | some j =>
    if !(j.contains "tracks") || !(j.get "tracks").isArr then (st, true)
    else runTracks (j.get "tracks").arrItems { st with available := [] }

/-- Track name chosen by `process_hang_catalog` for a kind (the ternary in
src/moq-mgr-cpp-old/src/moq-mgr-consumer-session.cc lines 95 and 100): the
kind name when there is no `renditions` member, the first rendition key
when `renditions` is a nonempty object.  When `renditions` is present but
not an object, `begin().key()` throws `json::invalid_iterator`, rendered
as `none`; an empty `renditions` object makes the C++ call `key()` on an
end iterator, which is undefined — the model folds it into the `none`
branch and every theorem about the normal path excludes it by
hypothesis. -/
def hangKindName (j : Jval) (kind : String) : Option String :=
  if (j.get kind).contains "renditions" then
    match (j.get kind).get "renditions" with
    | .obj (f :: _) => some f.1
    | _ => none
  else some kind

/-- The `"audio"` half of `process_hang_catalog` plus the final
`check_subscriptions()` call (src/moq-mgr-cpp-old/src/moq-mgr-consumer-
session.cc lines 99-104): when the document contains `"audio"`, compute
its track name — a thrown `json::invalid_iterator` is caught by the
enclosing handler, which fires the error callback and keeps the mutations
so far without reconciling — otherwise store the entry and reconcile.
The second component reports whether the error callback fired. -/
def hangAudioStep (j : Jval) (st : MgrState) : MgrState × Bool :=
  if j.contains "audio" then
    match hangKindName j "audio" with
    | none => (st, true)
    | some na =>
      let avail := insertTrack st.available na ⟨na, "audio", 1⟩
      (⟨avail, checkSubscriptions st.requested avail st.consumers,
        st.requested⟩, false)
  else
    (⟨st.available,
      checkSubscriptions st.requested st.available st.consumers,
      st.requested⟩, false)

/-- `ConsumerSession::process_hang_catalog`
(src/moq-mgr-cpp-old/src/moq-mgr-consumer-session.cc lines 85-110): clears
`available_tracks_`; for the kind `"video"` and then `"audio"`, when the
document contains the kind, stores one entry keyed by `hangKindName` with
that kind as type and priority 1; finally calls `check_subscriptions`.
A `json::invalid_iterator` thrown while computing a kind's track name is
caught by the `catch (const json::exception&)` handler: the error callback
fires and the function returns with the mutations made so far, inserting
nothing further and never reaching `check_subscriptions`.  The second
component reports whether the error callback fired. -/
def processHangCatalog (j : Jval) (st : MgrState) : MgrState × Bool :=
  let st0 : MgrState := ⟨[], st.consumers, st.requested⟩
  if j.contains "video" then
    match hangKindName j "video" with
    | none => (st0, true)
    | some nv =>
      hangAudioStep j
        ⟨insertTrack st0.available nv ⟨nv, "video", 1⟩, st.consumers,
          st.requested⟩
  else hangAudioStep j st0

/-- `ConsumerSession::process_catalog_data` in the old manager
(src/moq-mgr-cpp-old/src/moq-mgr-consumer-session.cc lines 112-158): like
the part_000 variant, except that a parsed document without a `tracks` array
notifies the error callback and then runs `process_hang_catalog` on the
document. -/
def processCatalogDataOld (input : Option Jval) (st : MgrState) :
    MgrState × Bool :=
  match input with
  | none => (st, true)
  | some j =>
    if !(j.contains "tracks") || !(j.get "tracks").isArr then
      ((processHangCatalog j st).1, true)
    else runTracks (j.get "tracks").arrItems { st with available := [] }

/-! ## Sesame binary protocol (src/unnamed/part_014 and part_015)

Buffers are byte lists.  The packed `header_data` struct (part_015 lines
37-48) is 32 bytes: magic u32 at offset 0, flags u32 at 4, pts u64 at 8,
id u64 at 16, version u16 at 24, header_size u16 at 26, type u16 at 28,
reserved u16 at 30, little-endian.  `header_metadata` is a raw 64-byte
block and `header_codec_data` a raw 24-byte block; `serialize` and
`parse_data` move them by `memcpy` / pointer cast, so the model treats them
as opaque byte lists of those lengths. -/

/-- Little-endian byte encoding of a value into `w` bytes (the in-memory
image of a packed unsigned field). -/
def leBytes : Nat → Nat → List Nat
  | 0, _ => []
  | w + 1, v => v % 256 :: leBytes w (v / 256)

/-- Value of a little-endian byte list. -/
def leVal (bs : List Nat) : Nat :=
  bs.foldr (fun b acc => b + 256 * acc) 0

/-- The `header_data` struct (src/unnamed/part_015 lines 37-48); `ptype`
renders the C `type` member. -/
@[ext]
structure HeaderData where
  magic : Nat
  flags : Nat
  pts : Nat
  id : Nat
  version : Nat
  headerSize : Nat
  ptype : Nat
  reserved : Nat
  deriving DecidableEq, Repr

/-- `PROTOCOL_MAGIC` (src/unnamed/part_015 line 34). -/
def PROTOCOL_MAGIC : Nat := 0x4D534553

/-- `PROTOCOL_VERSION` (src/unnamed/part_015 line 35). -/
def PROTOCOL_VERSION : Nat := 1

/-- `sizeof(header_data)` for the packed struct: 32 bytes. -/
def HEADER_DATA_SIZE : Nat := 32

/-- `sizeof(header_codec_data)` for the packed struct: 24 bytes. -/
def HEADER_CODEC_DATA_SIZE : Nat := 24

/-- `sizeof(header_metadata)`: 64 bytes. -/
def HEADER_METADATA_SIZE : Nat := 64

/-- `BinaryProtocol::calculate_header_size` (src/unnamed/part_014 lines
20-32); `flags & FLAG_HAS_METADATA` is bit 1 and `flags & FLAG_HAS_CODEC_DATA`
bit 0 (part_015 lines 30-31). -/
def calculateHeaderSize (flags : Nat) : Nat :=
  HEADER_DATA_SIZE +
    (if flags.testBit 1 then HEADER_METADATA_SIZE else 0) +
    (if flags.testBit 0 then HEADER_CODEC_DATA_SIZE else 0)

/-- In-memory image of a `header_data` struct. -/
def serializeHeaderData (h : HeaderData) : List Nat :=
  leBytes 4 h.magic ++ leBytes 4 h.flags ++ leBytes 8 h.pts ++
    leBytes 8 h.id ++ leBytes 2 h.version ++ leBytes 2 h.headerSize ++
    leBytes 2 h.ptype ++ leBytes 2 h.reserved

/-- Reading a `header_data` struct from the front of a buffer (the
`reinterpret_cast<header_data*>(data)` of parse_data). -/
def parseHeaderData (bs : List Nat) : HeaderData where
  magic := leVal (bs.take 4)
  flags := leVal ((bs.drop 4).take 4)
  pts := leVal ((bs.drop 8).take 8)
  id := leVal ((bs.drop 16).take 8)
  version := leVal ((bs.drop 24).take 2)
  headerSize := leVal ((bs.drop 26).take 2)
  ptype := leVal ((bs.drop 28).take 2)
  reserved := leVal ((bs.drop 30).take 2)

/-- `BinaryProtocol::validate_header` (src/unnamed/part_014 lines 79-104):
magic, version, header_size against `calculate_header_size(flags)`, and
total size at least header_size.  (The null-header branch cannot arise in
the model: `parse_data` only calls this after the 32-byte length check.) -/
def validateHeader (h : HeaderData) (totalSize : Nat) : Bool :=
  h.magic == PROTOCOL_MAGIC && h.version == PROTOCOL_VERSION &&
    h.headerSize == calculateHeaderSize h.flags &&
    decide (h.headerSize ≤ totalSize)

/-- Successful `ParsedData` (src/unnamed/part_015 lines 78-85): the header,
the optional metadata and codec blocks, and the payload region; `valid` is
rendered by the surrounding `Option` and `payload_size` by
`payload.length`. -/
structure ParsedOk where
  header : HeaderData
  metadata : Option (List Nat)
  codecData : Option (List Nat)
  payload : List Nat
  deriving DecidableEq, Repr

/-- `BinaryProtocol::parse_data` (src/unnamed/part_014 lines 34-77).
`none` input models a null data pointer; the buffer length is the `size`
argument.  Returns `none` exactly where the C code returns a result with
`valid = false`. -/
def parseData (data : Option (List Nat)) : Option ParsedOk :=
  match data with
  | none => none
  | some bs =>
    if bs.length < HEADER_DATA_SIZE then none
    else
      let h := parseHeaderData bs
      if !validateHeader h bs.length then none
      else
        let rest := bs.drop HEADER_DATA_SIZE
        if h.flags.testBit 1 then
          if rest.length < HEADER_METADATA_SIZE then none
          else
            let rest2 := rest.drop HEADER_METADATA_SIZE
            if h.flags.testBit 0 then
              if rest2.length < HEADER_CODEC_DATA_SIZE then none
              else
                some ⟨h, some (rest.take HEADER_METADATA_SIZE),
                  some (rest2.take HEADER_CODEC_DATA_SIZE),
                  rest2.drop HEADER_CODEC_DATA_SIZE⟩
            else some ⟨h, some (rest.take HEADER_METADATA_SIZE), none, rest2⟩
        else
          if h.flags.testBit 0 then
            if rest.length < HEADER_CODEC_DATA_SIZE then none
            else
              some ⟨h, none, some (rest.take HEADER_CODEC_DATA_SIZE),
                rest.drop HEADER_CODEC_DATA_SIZE⟩
          else some ⟨h, none, none, rest⟩

/-- `BinaryProtocol::serialize` (src/unnamed/part_014 lines 106-162).
Optional blocks are included only when supplied and flagged; the function
fails (C returns 0) when the buffer capacity is below the total size;
otherwise it overwrites the header's `header_size` with
`(uint16_t)(total_size - payload_size)` and lays out header, metadata,
codec data and payload.  (The null buffer / null header early return is not
modelled: the model always has both, with `bufferSize` as the capacity.) -/
def serializeBP (bufferSize : Nat) (h : HeaderData)
    (metadata codecData : Option (List Nat)) (payload : List Nat) :
    Option (List Nat) :=
  let includeMeta := metadata.isSome && h.flags.testBit 1
  let includeCodec := codecData.isSome && h.flags.testBit 0
  let totalSize := HEADER_DATA_SIZE +
    (if includeMeta then HEADER_METADATA_SIZE else 0) +
    (if includeCodec then HEADER_CODEC_DATA_SIZE else 0) + payload.length
  if bufferSize < totalSize then none
  else
    let h2 := { h with headerSize := (totalSize - payload.length) % 65536 }
    some (serializeHeaderData h2 ++
      (if includeMeta then metadata.getD [] else []) ++
      (if includeCodec then codecData.getD [] else []) ++ payload)

/-! ## Concrete states and documents used as evaluation inputs -/

/-- A manager state with one requested, advertised and running track
`"video/hd"` (the situation of spec scenario 2). -/
def staleWorkerState : MgrState :=
  ⟨[("video/hd", ⟨"video/hd", "video", 60⟩)], ["video/hd"], ["video/hd"]⟩

/-- The catalog document `{"tracks": []}` of spec scenario 3. -/
def emptyTracksCatalog : Jval := .obj [("tracks", .arr [])]

/-- A manager state whose `available_tracks_` holds one entry. -/
def priorAvailState : MgrState := ⟨[("x", ⟨"x", "video", 5⟩)], [], []⟩

/-- A HANG catalog whose `video` kind declares priority 60 and two
renditions `"a"` and `"b"` (field lists in nlohmann key order). -/
def hangTwoRenditions : Jval :=
  .obj [("video", .obj [("priority", .num 60),
    ("renditions", .obj [("a", .obj []), ("b", .obj [])])])]

/-- The manager state right after construction: everything empty. -/
def mgrEmptyState : MgrState := ⟨[], [], []⟩

end MoqCpp

namespace MoqCpp

/-! ## Theorems for the group writer claims -/

/-- C4: after `finish()` (or the destructor's implicit finish) every
`writeFrame` returns false and appends nothing to the channel, `finished_`
stays set, and a second `finish` changes nothing and issues no FFI call. -/
theorem finish_terminal (gp : GroupProducerSt) (ch : Channel)
    (data : List Nat) :
    let gp1 := (gpFinish gp).1
    gp1.finished = true ∧
    gpWriteFrame gp1 ch data = (false, ch) ∧
    gpFinish gp1 = (gp1, false) ∧
    gpDestruct gp1 = (gp1, false) ∧
    (gpDestruct gp).1.finished = true ∧
    gpWriteFrame (gpDestruct gp).1 ch data = (false, ch) := by
  cases gp with
  | mk f h =>
    cases f <;> cases h <;>
      simp [gpFinish, gpWriteFrame, gpDestruct]

/-- C5: on an open group, writing a zero-length frame succeeds (the FFI
channel, modelled from the spec, accepts it), but the paired
`GroupConsumer::readFrame` — whose guard requires `data_len > 0` — yields
nullopt for it, indistinguishable from end-of-group, instead of a present
zero-length frame. -/
theorem zero_length_frame_read_as_absent :
    gpWriteFrame ⟨false, true⟩ [] [] = (true, [[]]) ∧
    gcReadFrame true [[]] = none ∧
    gcReadFrame true [] = none := by
  decide

/-- C6: a second `Session::close` after a first is a no-op issuing no FFI
call, and after close `isConnected` is false, `publish` returns false,
`consume` and `getOriginConsumer` return null, whatever the FFI oracle
would answer on a live handle. -/
theorem close_idempotent_and_terminal (s : SessionSt) (producer ffiConn : Bool)
    (ffiOk : Bool) (ffiCons ffiOrig : Option Nat) :
    let s1 := (sessionClose s).1
    s1.handle = false ∧
    sessionClose s1 = (s1, 0) ∧
    sessionIsConnected s1 ffiConn = false ∧
    sessionPublish s1 producer ffiOk = false ∧
    sessionConsume s1 ffiCons = none ∧
    sessionGetOriginConsumer s1 ffiOrig = none := by
  cases s with
  | mk h =>
    cases h <;>
      simp [sessionClose, sessionIsConnected, sessionPublish, sessionConsume,
        sessionGetOriginConsumer]

/-- C8 counterexample: the started catalog consumer of the moq-mgr manager
subscribes only to `"catalog"` and does not receive frames published on
`"catalog.json"`, and the old manager's consumer subscribes only to
`"catalog.json"` and does not receive frames published on `"catalog"` — so
no variant accepts the catalog under either fixed track name. -/
theorem catalog_name_not_both_accepted :
    trackDelivers "catalog.json" catalogTrackNameMgr = false ∧
    trackDelivers "catalog" catalogTrackNameOld = false := by
  decide

/-- C8 amended: each `start_catalog_consumer` subscribes to exactly one
fixed catalog track name — `"catalog"` in src/moq-mgr and src/unnamed/
part_000, `"catalog.json"` in src/moq-mgr-cpp-old — and its subscription
receives exactly the frames published under that one name. -/
theorem catalog_single_fixed_name (pub : String) :
    (trackDelivers pub catalogTrackNameMgr = true ↔ pub = "catalog") ∧
    (trackDelivers pub catalogTrackNameOld = true ↔ pub = "catalog.json") ∧
    (trackDelivers pub catalogTrackNamePart000 = true ↔ pub = "catalog") := by
  simp [trackDelivers, catalogTrackNameMgr, catalogTrackNameOld,
    catalogTrackNamePart000, beq_iff_eq]

/-- C1: evaluating `process_catalog_data` at the catalog `{"tracks": []}`
from a state whose one requested, available track `"video/hd"` has a
running worker: the available map is cleared but `check_subscriptions` is
never reached (it sits inside the per-track loop), so the worker keeps
running — the worker set is not a subset of `requested ∩ available`
(which is empty), though no error was reported. -/
theorem empty_catalog_keeps_stale_worker :
    processCatalogData (some emptyTracksCatalog) staleWorkerState =
      (⟨[], ["video/hd"], ["video/hd"]⟩, false) ∧
    ¬ (∀ n ∈ (processCatalogData (some emptyTracksCatalog)
          staleWorkerState).1.consumers,
        n ∈ availKeys (processCatalogData (some emptyTracksCatalog)
          staleWorkerState).1.available) := by
  decide

/-- C2 counterexample: in the old manager, a parseable catalog payload that
is not even a JSON object (here the document `42`) reports an error but
then runs the HANG fallback, which clears `available_tracks_` — the map is
not left as it was. -/
theorem invalid_doc_rebuilds_available_old :
    (processCatalogDataOld (some (Jval.num 42)) priorAvailState).2 = true ∧
    (processCatalogDataOld (some (Jval.num 42)) priorAvailState).1.available
      = [] ∧
    (processCatalogDataOld (some (Jval.num 42)) priorAvailState).1.available
      ≠ priorAvailState.available := by
  decide

/-- C2 amended: a JSON parse failure leaves the state of either manager
variant untouched and fires the error callback; a parseable document
without a usable `tracks` array does so too in the part_000 variant (the
old variant instead runs the HANG fallback, which rebuilds the available
map and reconciles subscriptions). -/
theorem catalog_error_leaves_state (st : MgrState) (j : Jval)
    (hj : (!(j.contains "tracks") || !(j.get "tracks").isArr) = true) :
    processCatalogData none st = (st, true) ∧
    processCatalogData (some j) st = (st, true) ∧
    processCatalogDataOld none st = (st, true) := by
  refine ⟨rfl, ?_, rfl⟩
  simp [processCatalogData, hj]

/-- C2 amended, witness at the document `42` and a nonempty prior map. -/
theorem catalog_error_leaves_state_witness :
    processCatalogData none priorAvailState = (priorAvailState, true) ∧
    processCatalogData (some (Jval.num 42)) priorAvailState =
      (priorAvailState, true) ∧
    processCatalogDataOld none priorAvailState = (priorAvailState, true) :=
  catalog_error_leaves_state priorAvailState (Jval.num 42) (by decide)

/-- C3 counterexample: on a HANG catalog whose `video` kind declares
priority 60 and renditions `"a"` and `"b"`, the processor stores no entry
for the second rendition `"b"` at all, and the entry for `"a"` carries
priority 1, not the declared 60. -/
theorem hang_second_rendition_dropped :
    lookupTrack
      (processHangCatalog hangTwoRenditions mgrEmptyState).1.available
      "b" = none ∧
    lookupTrack
      (processHangCatalog hangTwoRenditions mgrEmptyState).1.available
      "a" = some ⟨"a", "video", 1⟩ := by
  decide

/-- Looking up the key just stored yields the stored track. -/
theorem lookupTrack_insertTrack_self (m : AvailMap) (k : String)
    (v : AvailableTrack) : lookupTrack (insertTrack m k v) k = some v := by
  induction m with
  | nil => simp [insertTrack, lookupTrack]
  | cons p rest ih =>
    cases hp : p.1 == k <;> simp [insertTrack, lookupTrack, hp, ih]

/-- Storing under one key does not change lookups of another key. -/
theorem lookupTrack_insertTrack_ne (m : AvailMap) (k : String)
    (v : AvailableTrack) (k2 : String) (h : k2 ≠ k) :
    lookupTrack (insertTrack m k v) k2 = lookupTrack m k2 := by
  induction m with
  | nil => simp [insertTrack, lookupTrack, beq_iff_eq, Ne.symm h]
  | cons p rest ih =>
    cases hp : p.1 == k
    · simp [insertTrack, lookupTrack, hp, ih]
    · have hpk : p.1 = k := by simpa [beq_iff_eq] using hp
      simp [insertTrack, lookupTrack, hp, hpk, beq_iff_eq, Ne.symm h]

/-- C3 amended: `process_hang_catalog` considers only the kinds `"video"`
and `"audio"`.  On the normal path — each present kind's `renditions`
member, when it exists, is a nonempty object — it stores exactly one entry
per present kind, keyed by the first rendition key (or the kind name when
`renditions` is absent), always with priority 1 (the declared priority is
ignored); every other name is absent from the rebuilt map, the worker list
is reconciled against it, and no error fires.  When computing a present
kind's track name throws `json::invalid_iterator` (a non-object
`renditions`; the empty object is undefined behaviour in the C++), the
error callback fires, the map keeps only what was already inserted, and
the worker list is not reconciled. -/
theorem hang_catalog_behavior (j : Jval) (st : MgrState) :
    (∀ nv na : String,
      (j.contains "video" = true → hangKindName j "video" = some nv) →
      (j.contains "audio" = true → hangKindName j "audio" = some na) →
      (processHangCatalog j st).2 = false ∧
      (j.contains "audio" = true →
        lookupTrack (processHangCatalog j st).1.available na =
          some ⟨na, "audio", 1⟩) ∧
      (j.contains "video" = true →
        (j.contains "audio" = true → na ≠ nv) →
        lookupTrack (processHangCatalog j st).1.available nv =
          some ⟨nv, "video", 1⟩) ∧
      (∀ name, name ≠ nv → name ≠ na →
        lookupTrack (processHangCatalog j st).1.available name = none) ∧
      (processHangCatalog j st).1.consumers =
        checkSubscriptions st.requested
          (processHangCatalog j st).1.available st.consumers ∧
      (processHangCatalog j st).1.requested = st.requested) ∧
    (j.contains "video" = true → hangKindName j "video" = none →
      ((j.get "video").get "renditions").isObj = false →
      processHangCatalog j st = (⟨[], st.consumers, st.requested⟩, true)) ∧
    (j.contains "video" = false → j.contains "audio" = true →
      hangKindName j "audio" = none →
      ((j.get "audio").get "renditions").isObj = false →
      processHangCatalog j st = (⟨[], st.consumers, st.requested⟩, true)) ∧
    (∀ nv, j.contains "video" = true → j.contains "audio" = true →
      hangKindName j "video" = some nv → hangKindName j "audio" = none →
      ((j.get "audio").get "renditions").isObj = false →
      processHangCatalog j st =
        (⟨[(nv, ⟨nv, "video", 1⟩)], st.consumers, st.requested⟩, true)) := by
  refine ⟨?_, ?_, ?_, ?_⟩
  · intro nv na hv ha
    cases hcv : j.contains "video" <;> cases hca : j.contains "audio"
    · have heval : processHangCatalog j st =
          (⟨[], checkSubscriptions st.requested [] st.consumers,
            st.requested⟩, false) := by
        simp [processHangCatalog, hangAudioStep, hcv, hca]
      rw [heval]
      exact ⟨rfl, fun haa => absurd haa (by simp [hca]),
        fun hvv => absurd hvv (by simp [hcv]), fun name _ _ => rfl, rfl, rfl⟩
    · have hna := ha hca
      have heval : processHangCatalog j st =
          (⟨insertTrack [] na ⟨na, "audio", 1⟩,
            checkSubscriptions st.requested
              (insertTrack [] na ⟨na, "audio", 1⟩) st.consumers,
            st.requested⟩, false) := by
        simp [processHangCatalog, hangAudioStep, hcv, hca, hna]
      rw [heval]
      refine ⟨rfl, fun _ => lookupTrack_insertTrack_self _ _ _,
        fun hvv _ => absurd hvv (by simp [hcv]), ?_, rfl, rfl⟩
      intro name _ h2
      rw [lookupTrack_insertTrack_ne _ _ _ _ h2]
      rfl
    · have hnv := hv hcv
      have heval : processHangCatalog j st =
          (⟨insertTrack [] nv ⟨nv, "video", 1⟩,
            checkSubscriptions st.requested
              (insertTrack [] nv ⟨nv, "video", 1⟩) st.consumers,
            st.requested⟩, false) := by
        simp [processHangCatalog, hangAudioStep, hcv, hca, hnv]
      rw [heval]
      refine ⟨rfl, fun haa => absurd haa (by simp [hca]),
        fun _ _ => lookupTrack_insertTrack_self _ _ _, ?_, rfl, rfl⟩
      intro name h1 _
      rw [lookupTrack_insertTrack_ne _ _ _ _ h1]
      rfl
    · have hnv := hv hcv
      have hna := ha hca
      have heval : processHangCatalog j st =
          (⟨insertTrack (insertTrack [] nv ⟨nv, "video", 1⟩) na
              ⟨na, "audio", 1⟩,
            checkSubscriptions st.requested
              (insertTrack (insertTrack [] nv ⟨nv, "video", 1⟩) na
                ⟨na, "audio", 1⟩) st.consumers,
            st.requested⟩, false) := by
        simp [processHangCatalog, hangAudioStep, hcv, hca, hnv, hna]
      rw [heval]
      refine ⟨rfl, fun _ => lookupTrack_insertTrack_self _ _ _, ?_, ?_,
        rfl, rfl⟩
      · intro _ hne
        rw [lookupTrack_insertTrack_ne _ _ _ _ (Ne.symm (hne rfl))]
        exact lookupTrack_insertTrack_self _ _ _
      · intro name h1 h2
        rw [lookupTrack_insertTrack_ne _ _ _ _ h2,
          lookupTrack_insertTrack_ne _ _ _ _ h1]
        rfl
  · intro hcv hnone _
    simp [processHangCatalog, hcv, hnone]
  · intro hcv hca hnone _
    simp [processHangCatalog, hangAudioStep, hcv, hca, hnone]
  · intro nv hcv hca hsome hnone _
    simp [processHangCatalog, hangAudioStep, hcv, hca, hsome, hnone,
      insertTrack]

/-- C3 amended, witness at the two-rendition HANG catalog: the entry stored
for the `video` kind is keyed by the first rendition `"a"` with priority
1. -/
theorem hang_catalog_behavior_witness :
    lookupTrack
      (processHangCatalog hangTwoRenditions mgrEmptyState).1.available
      "a" = some ⟨"a", "video", 1⟩ :=
  ((hang_catalog_behavior hangTwoRenditions mgrEmptyState).1 "a" "audio"
    (fun _ => by decide) (by decide)).2.2.1 (by decide) (by decide)

/-- Unfolding `runLoop` on a cons cell. -/
theorem runLoop_cons (cfg : LoopCfg) (s : LoopSt) (inp : LoopInput)
    (rest : List LoopInput) :
    runLoop cfg s (inp :: rest) =
      ((match (sessionLoopStep cfg inp s).2 with
        | some ok =>
          (inp.now, ok) :: (runLoop cfg (sessionLoopStep cfg inp s).1 rest).1
        | none => (runLoop cfg (sessionLoopStep cfg inp s).1 rest).1),
       (runLoop cfg (sessionLoopStep cfg inp s).1 rest).2) := rfl

/-- A stopped loop does nothing: no events, state unchanged. -/
theorem runLoop_not_running (cfg : LoopCfg) (ins : List LoopInput) :
    ∀ s : LoopSt, s.running = false → runLoop cfg s ins = ([], s) := by
  induction ins with
  | nil => intro s _; rfl
  | cons inp rest ih =>
    intro s hs
    rw [runLoop_cons]
    have hstep : sessionLoopStep cfg inp s = (s, none) := by
      simp [sessionLoopStep, hs]
    rw [hstep]
    simp [ih s hs]

/-- With `reconnect_on_failure` unset, no iteration ever attempts a
reconnect. -/
theorem runLoop_no_attempt_when_disabled (cfg : LoopCfg)
    (hcfg : cfg.reconnectOnFailure = false) (ins : List LoopInput) :
    ∀ s : LoopSt, (runLoop cfg s ins).1 = [] := by
  induction ins with
  | nil => intro s; rfl
  | cons inp rest ih =>
    intro s
    rw [runLoop_cons]
    have hstep : (sessionLoopStep cfg inp s).2 = none := by
      simp only [sessionLoopStep, hcfg]
      cases s.running <;> cases inp.alive <;> simp
    rw [hstep]
    exact ih _

/-- With `reconnect_on_failure` unset, observing a dead session stops the
loop for good. -/
theorem runLoop_stops_when_disabled (cfg : LoopCfg)
    (hcfg : cfg.reconnectOnFailure = false) (ins : List LoopInput) :
    ∀ s : LoopSt, (∃ inp ∈ ins, inp.alive = false) →
      ((runLoop cfg s ins).2).running = false := by
  induction ins with
  | nil =>
    intro s h
    obtain ⟨inp, hmem, _⟩ := h
    cases hmem
  | cons inp rest ih =>
    intro s h
    cases hs : s.running
    · rw [runLoop_not_running cfg (inp :: rest) s hs]
      exact hs
    · rw [runLoop_cons]
      cases ha : inp.alive
      · have hstep : sessionLoopStep cfg inp s = ({ s with running := false }, none) := by
          simp [sessionLoopStep, hs, ha, hcfg]
        rw [hstep]
        have := runLoop_not_running cfg rest { s with running := false } rfl
        simp [this]
      · have hstep : sessionLoopStep cfg inp s = (s, none) := by
          simp [sessionLoopStep, hs, ha]
        rw [hstep]
        apply ih
        obtain ⟨w, hmem, hw⟩ := h
        rcases List.mem_cons.mp hmem with hEq | hTail
        · rw [hEq] at hw
          rw [hw] at ha
          cases ha
        · exact ⟨w, hTail, hw⟩

/-- Spacing of reconnect attempts: the event list satisfies the 3-second
chain condition, and from a state whose `first_reconnect_attempt_` is
cleared the first attempt comes no earlier than 3000 ms after
`last_reconnect_attempt_`. -/
theorem runLoop_attempt_spacing (cfg : LoopCfg) (ins : List LoopInput) :
    ∀ s : LoopSt,
      List.Chain' (fun e1 e2 => e1.2 = false → e1.1 + 3000 ≤ e2.1)
        (runLoop cfg s ins).1 ∧
      (s.firstAttempt = false →
        ∀ e, (runLoop cfg s ins).1.head? = some e →
          s.lastAttempt + 3000 ≤ e.1) := by
  induction ins with
  | nil =>
    intro s
    exact ⟨List.chain'_nil, fun _ e he => by cases he⟩
  | cons inp rest ih =>
    intro s
    rw [runLoop_cons]
    cases hs : s.running
    · have hstep : sessionLoopStep cfg inp s = (s, none) := by
        simp [sessionLoopStep, hs]
      rw [hstep]
      exact ih s
    · cases ha : inp.alive
      · cases hc : cfg.reconnectOnFailure
        · have hstep : sessionLoopStep cfg inp s =
              (⟨false, s.firstAttempt, s.lastAttempt⟩, none) := by
            simp [sessionLoopStep, hs, ha, hc]
          rw [hstep]
          exact ih ⟨false, s.firstAttempt, s.lastAttempt⟩
        · cases hfa : (s.firstAttempt ||
              decide (3 ≤ (inp.now - s.lastAttempt) / 1000))
          · have hstep : sessionLoopStep cfg inp s = (s, none) := by
              simp only [sessionLoopStep, hs, ha, hc, hfa]
              simp
            rw [hstep]
            exact ih s
          · have hstep : sessionLoopStep cfg inp s =
                (⟨s.running, inp.reconnectOk, inp.now⟩,
                  some inp.reconnectOk) := by
              simp only [sessionLoopStep, hs, ha, hc, hfa]
              simp
            rw [hstep]
            set s1 : LoopSt := ⟨s.running, inp.reconnectOk, inp.now⟩
              with hs1
            constructor
            · rw [List.chain'_cons']
              refine ⟨?_, (ih s1).1⟩
              intro y hy hok
              have h2 := (ih s1).2
              have hfa1 : s1.firstAttempt = false := by
                rw [hs1]
                exact hok
              have := h2 hfa1 y (by simpa using hy)
              simpa [hs1] using this
            · intro hf e he
              have hnow : s.lastAttempt + 3000 ≤ inp.now := by
                rw [hf] at hfa
                simp only [Bool.false_or] at hfa
                have h3 : 3 ≤ (inp.now - s.lastAttempt) / 1000 :=
                  of_decide_eq_true hfa
                have : 3 * 1000 ≤ inp.now - s.lastAttempt :=
                  (Nat.le_div_iff_mul_le (by norm_num)).mp h3
                omega
              simp only [List.head?_cons, Option.some_inj] at he
              rw [← he]
              exact hnow
      · have hstep : sessionLoopStep cfg inp s = (s, none) := by
          simp [sessionLoopStep, hs, ha]
        rw [hstep]
        exact ih s

/-- C7: when the session dies, a manager without `reconnect_on_failure`
attempts no reconnect and stops for good; a manager with it set attempts
one immediately when `first_reconnect_attempt_` is set (as it is after a
successful reconnection), and consecutive attempts the first of which
failed are at least 3000 ms apart. -/
theorem session_loop_reconnect_policy (cfg : LoopCfg) (s : LoopSt)
    (ins : List LoopInput) :
    (cfg.reconnectOnFailure = false →
      (runLoop cfg s ins).1 = [] ∧
      ((∃ inp ∈ ins, inp.alive = false) →
        ((runLoop cfg s ins).2).running = false)) ∧
    (cfg.reconnectOnFailure = true → s.running = true →
      s.firstAttempt = true →
      ∀ inp rest, ins = inp :: rest → inp.alive = false →
        (runLoop cfg s ins).1.head? = some (inp.now, inp.reconnectOk)) ∧
    List.Chain' (fun e1 e2 => e1.2 = false → e1.1 + 3000 ≤ e2.1)
      (runLoop cfg s ins).1 := by
  refine ⟨?_, ?_, (runLoop_attempt_spacing cfg ins s).1⟩
  · intro hcfg
    exact ⟨runLoop_no_attempt_when_disabled cfg hcfg ins s,
      fun h => runLoop_stops_when_disabled cfg hcfg ins s h⟩
  · intro hc hs hf inp rest hins ha
    subst hins
    rw [runLoop_cons]
    have hstep : sessionLoopStep cfg inp s =
        (⟨s.running, inp.reconnectOk, inp.now⟩, some inp.reconnectOk) := by
      simp [sessionLoopStep, hs, ha, hc, hf]
    rw [hstep]
    rfl

/-- C7 witness: a trace with `reconnect_on_failure` set, a dead session,
an immediate failed first attempt at t = 5 ms and a second attempt at
t = 3500 ms. -/
theorem session_loop_reconnect_policy_witness :
    (runLoop ⟨true⟩ ⟨true, true, 0⟩
      [⟨5, false, false⟩, ⟨3500, false, true⟩]).1.head? = some (5, false) :=
  (session_loop_reconnect_policy ⟨true⟩ ⟨true, true, 0⟩ _).2.1 rfl rfl rfl
    ⟨5, false, false⟩ [⟨3500, false, true⟩] rfl rfl

/-- A `w`-byte little-endian image has length `w`. -/
theorem leBytes_length (w : Nat) : ∀ v : Nat, (leBytes w v).length = w := by
  induction w with
  | zero => intro v; rfl
  | succ w ih => intro v; simp [leBytes, ih]

/-- Decoding a `w`-byte little-endian image recovers the value mod `256^w`. -/
theorem leVal_leBytes (w : Nat) : ∀ v : Nat, leVal (leBytes w v) = v % 256 ^ w := by
  induction w with
  | zero => intro v; simp [leBytes, leVal, Nat.mod_one]
  | succ w ih =>
    intro v
    show v % 256 + 256 * leVal (leBytes w (v / 256)) = v % 256 ^ (w + 1)
    rw [ih (v / 256), pow_succ, mul_comm (256 ^ w) 256, Nat.mod_mul]

/-- Decoding a value below `256^w` from its image is the identity. -/
theorem leVal_leBytes_of_lt (w v : Nat) (h : v < 256 ^ w) :
    leVal (leBytes w v) = v := by
  rw [leVal_leBytes]
  exact Nat.mod_eq_of_lt h

/-- Taking the image's width from an image-fronted buffer and decoding
recovers the value; dropping the width leaves the tail. -/
theorem leBytes_peel (w v : Nat) (tail : List Nat) (h : v < 256 ^ w) :
    leVal ((leBytes w v ++ tail).take w) = v ∧
    (leBytes w v ++ tail).drop w = tail := by
  constructor
  · rw [List.take_left' (leBytes_length w v)]
    exact leVal_leBytes_of_lt w v h
  · exact List.drop_left' (leBytes_length w v)

/-- Reading a `header_data` image back recovers the struct, provided each
field fits its machine width. -/
theorem parseHeaderData_serializeHeaderData (h : HeaderData) (rest : List Nat)
    (hmagic : h.magic < 2 ^ 32) (hflags : h.flags < 2 ^ 32)
    (hpts : h.pts < 2 ^ 64) (hid : h.id < 2 ^ 64)
    (hver : h.version < 2 ^ 16) (hhs : h.headerSize < 2 ^ 16)
    (hty : h.ptype < 2 ^ 16) (hres : h.reserved < 2 ^ 16) :
    parseHeaderData (serializeHeaderData h ++ rest) = h := by
  have e4 : (2 : Nat) ^ 32 = 256 ^ 4 := by norm_num
  have e8 : (2 : Nat) ^ 64 = 256 ^ 8 := by norm_num
  have e2 : (2 : Nat) ^ 16 = 256 ^ 2 := by norm_num
  rw [e4] at hmagic hflags
  rw [e8] at hpts hid
  rw [e2] at hver hhs hty hres
  have e0 : serializeHeaderData h ++ rest =
      leBytes 4 h.magic ++ (leBytes 4 h.flags ++ (leBytes 8 h.pts ++
        (leBytes 8 h.id ++ (leBytes 2 h.version ++ (leBytes 2 h.headerSize ++
          (leBytes 2 h.ptype ++ (leBytes 2 h.reserved ++ rest))))))) := by
    simp [serializeHeaderData, List.append_assoc]
  rw [e0]
  set t8 := leBytes 2 h.reserved ++ rest with ht8
  set t7 := leBytes 2 h.ptype ++ t8 with ht7
  set t6 := leBytes 2 h.headerSize ++ t7 with ht6
  set t5 := leBytes 2 h.version ++ t6 with ht5
  set t4 := leBytes 8 h.id ++ t5 with ht4
  set t3 := leBytes 8 h.pts ++ t4 with ht3
  set t2 := leBytes 4 h.flags ++ t3 with ht2
  set bs := leBytes 4 h.magic ++ t2 with hbs
  have hd4 : bs.drop 4 = t2 := List.drop_left' (leBytes_length 4 _)
  have hd8 : bs.drop 8 = t3 := by
    have : bs.drop 8 = (bs.drop 4).drop 4 := (List.drop_drop 4 4 bs).symm
    rw [this, hd4, ht2]
    exact List.drop_left' (leBytes_length 4 _)
  have hd16 : bs.drop 16 = t4 := by
    have : bs.drop 16 = (bs.drop 8).drop 8 := (List.drop_drop 8 8 bs).symm
    rw [this, hd8, ht3]
    exact List.drop_left' (leBytes_length 8 _)
  have hd24 : bs.drop 24 = t5 := by
    have : bs.drop 24 = (bs.drop 16).drop 8 := (List.drop_drop 8 16 bs).symm
    rw [this, hd16, ht4]
    exact List.drop_left' (leBytes_length 8 _)
  have hd26 : bs.drop 26 = t6 := by
    have : bs.drop 26 = (bs.drop 24).drop 2 := (List.drop_drop 2 24 bs).symm
    rw [this, hd24, ht5]
    exact List.drop_left' (leBytes_length 2 _)
  have hd28 : bs.drop 28 = t7 := by
    have : bs.drop 28 = (bs.drop 26).drop 2 := (List.drop_drop 2 26 bs).symm
    rw [this, hd26, ht6]
    exact List.drop_left' (leBytes_length 2 _)
  have hd30 : bs.drop 30 = t8 := by
    have : bs.drop 30 = (bs.drop 28).drop 2 := (List.drop_drop 2 28 bs).symm
    rw [this, hd28, ht7]
    exact List.drop_left' (leBytes_length 2 _)
  refine HeaderData.ext ?_ ?_ ?_ ?_ ?_ ?_ ?_ ?_
  · show leVal (bs.take 4) = h.magic
    rw [hbs]
    exact (leBytes_peel 4 h.magic t2 hmagic).1
  · show leVal ((bs.drop 4).take 4) = h.flags
    rw [hd4, ht2]
    exact (leBytes_peel 4 h.flags t3 hflags).1
  · show leVal ((bs.drop 8).take 8) = h.pts
    rw [hd8, ht3]
    exact (leBytes_peel 8 h.pts t4 hpts).1
  · show leVal ((bs.drop 16).take 8) = h.id
    rw [hd16, ht4]
    exact (leBytes_peel 8 h.id t5 hid).1
  · show leVal ((bs.drop 24).take 2) = h.version
    rw [hd24, ht5]
    exact (leBytes_peel 2 h.version t6 hver).1
  · show leVal ((bs.drop 26).take 2) = h.headerSize
    rw [hd26, ht6]
    exact (leBytes_peel 2 h.headerSize t7 hhs).1
  · show leVal ((bs.drop 28).take 2) = h.ptype
    rw [hd28, ht7]
    exact (leBytes_peel 2 h.ptype t8 hty).1
  · show leVal ((bs.drop 30).take 2) = h.reserved
    rw [hd30, ht8]
    exact (leBytes_peel 2 h.reserved rest hres).1

/-- A serialized `header_data` image is 32 bytes. -/
theorem serializeHeaderData_length (h : HeaderData) :
    (serializeHeaderData h).length = 32 := by
  simp [serializeHeaderData, leBytes_length]

/-- Parsing a buffer laid out as a valid header image followed by the
blocks its flags announce recovers the header, the blocks and the
payload. -/
theorem parseData_layout (h2 : HeaderData) (mB cB payload : List Nat)
    (hmagic : h2.magic = PROTOCOL_MAGIC) (hver : h2.version = PROTOCOL_VERSION)
    (hflags : h2.flags < 2 ^ 32) (hpts : h2.pts < 2 ^ 64) (hid : h2.id < 2 ^ 64)
    (hhs : h2.headerSize < 2 ^ 16)
    (hty : h2.ptype < 2 ^ 16) (hres : h2.reserved < 2 ^ 16)
    (hm : if h2.flags.testBit 1 then mB.length = HEADER_METADATA_SIZE
          else mB = [])
    (hc : if h2.flags.testBit 0 then cB.length = HEADER_CODEC_DATA_SIZE
          else cB = [])
    (hsz : h2.headerSize = calculateHeaderSize h2.flags) :
    parseData (some (serializeHeaderData h2 ++ (mB ++ (cB ++ payload)))) =
      some ⟨h2, if h2.flags.testBit 1 then some mB else none,
        if h2.flags.testBit 0 then some cB else none, payload⟩ := by
  have hm32 : h2.magic < 2 ^ 32 := by rw [hmagic]; norm_num [PROTOCOL_MAGIC]
  have hv16 : h2.version < 2 ^ 16 := by rw [hver]; norm_num [PROTOCOL_VERSION]
  set rest : List Nat := mB ++ (cB ++ payload) with hrest
  set bs : List Nat := serializeHeaderData h2 ++ rest with hbs
  have hlen : bs.length = 32 + (mB.length + (cB.length + payload.length)) := by
    simp [hbs, hrest, serializeHeaderData_length]
  have hparse : parseHeaderData bs = h2 :=
    parseHeaderData_serializeHeaderData h2 rest hm32 hflags hpts hid hv16 hhs
      hty hres
  have hdrop : bs.drop HEADER_DATA_SIZE = rest := by
    rw [show HEADER_DATA_SIZE = 32 from rfl]
    exact List.drop_left' (serializeHeaderData_length h2)
  have hcalc : calculateHeaderSize h2.flags =
      32 + (if h2.flags.testBit 1 then 64 else 0) +
        (if h2.flags.testBit 0 then 24 else 0) := rfl
  have hval : validateHeader h2 bs.length = true := by
    simp only [validateHeader, Bool.and_eq_true, beq_iff_eq,
      decide_eq_true_eq]
    refine ⟨⟨⟨hmagic, hver⟩, hsz⟩, ?_⟩
    rw [hsz, hcalc, hlen]
    cases hb1 : h2.flags.testBit 1 <;> cases hb0 : h2.flags.testBit 0 <;>
      simp [hb1, hb0, HEADER_METADATA_SIZE, HEADER_CODEC_DATA_SIZE]
        at hm hc ⊢ <;>
      omega
  have hnot : ¬ bs.length < HEADER_DATA_SIZE := by
    simp only [HEADER_DATA_SIZE]
    omega
  show parseData (some bs) = _
  simp only [parseData]
  rw [if_neg hnot]
  simp only [hparse, hval, Bool.not_true, Bool.false_eq_true, if_false, hdrop]
  rw [hrest]
  cases hb1 : h2.flags.testBit 1 <;> cases hb0 : h2.flags.testBit 0 <;>
    simp [hb1, hb0, HEADER_METADATA_SIZE, HEADER_CODEC_DATA_SIZE]
      at hm hc ⊢
  · simp [hm, hc]
  · subst hm
    have h1 : ¬ (cB ++ payload).length < 24 := by
      simp only [List.length_append]
      omega
    simp [h1, List.take_left' hc, List.drop_left' hc]
    all_goals omega
  · subst hc
    have h1 : ¬ (mB ++ payload).length < 64 := by
      simp only [List.length_append]
      omega
    simp [h1, List.take_left' hm, List.drop_left' hm]
    all_goals omega
  · have h1 : ¬ (mB ++ (cB ++ payload)).length < 64 := by
      simp only [List.length_append]
      omega
    have h2c : ¬ (cB ++ payload).length < 24 := by
      simp only [List.length_append]
      omega
    simp [h1, h2c, List.take_left' hm, List.drop_left' hm,
      List.take_left' hc, List.drop_left' hc]
    refine ⟨by omega, by omega, ?_⟩
    rw [← List.drop_drop 24 64, List.drop_left' hm, List.drop_left' hc]

/-- C9 amended: for every header carrying the protocol magic and version
whose flags indicate exactly the optional blocks supplied (each of its
machine-width size), and every buffer at least as large as the total,
`parse_data` applied to the buffer `serialize` produced is valid and
recovers the header fields (magic, version, type, flags, pts, id), the
metadata and codec-data bytes, and the payload byte-for-byte. -/
theorem serialize_parse_roundtrip (h : HeaderData)
    (metadata codecData : Option (List Nat)) (payload : List Nat)
    (bufferSize : Nat)
    (hmagic : h.magic = PROTOCOL_MAGIC) (hver : h.version = PROTOCOL_VERSION)
    (hflags : h.flags < 2 ^ 32) (hpts : h.pts < 2 ^ 64) (hid : h.id < 2 ^ 64)
    (hty : h.ptype < 2 ^ 16) (hres : h.reserved < 2 ^ 16)
    (hmeta : metadata.isSome = h.flags.testBit 1)
    (hcodec : codecData.isSome = h.flags.testBit 0)
    (hmlen : ∀ m, metadata = some m → m.length = HEADER_METADATA_SIZE)
    (hclen : ∀ c, codecData = some c → c.length = HEADER_CODEC_DATA_SIZE)
    (hbuf : HEADER_DATA_SIZE +
        (if h.flags.testBit 1 then HEADER_METADATA_SIZE else 0) +
        (if h.flags.testBit 0 then HEADER_CODEC_DATA_SIZE else 0) +
        payload.length ≤ bufferSize) :
    ∃ buf, serializeBP bufferSize h metadata codecData payload = some buf ∧
      ∃ r, parseData (some buf) = some r ∧
        r.header.magic = h.magic ∧ r.header.version = h.version ∧
        r.header.ptype = h.ptype ∧ r.header.flags = h.flags ∧
        r.header.pts = h.pts ∧ r.header.id = h.id ∧
        r.metadata = metadata ∧ r.codecData = codecData ∧
        r.payload = payload := by
  cases hb1 : h.flags.testBit 1 <;> cases hb0 : h.flags.testBit 0 <;>
    rw [hb1] at hmeta <;> rw [hb0] at hcodec <;>
    rw [hb1, hb0] at hbuf <;>
    simp only [HEADER_DATA_SIZE, HEADER_METADATA_SIZE, HEADER_CODEC_DATA_SIZE]
      at hbuf <;>
    simp at hbuf
  · have hmn : metadata = none := by
      cases metadata with
      | none => rfl
      | some m => simp at hmeta
    have hcn : codecData = none := by
      cases codecData with
      | none => rfl
      | some c => simp at hcodec
    subst hmn
    subst hcn
    have hser : serializeBP bufferSize h none none payload =
        some (serializeHeaderData { h with headerSize := 32 } ++
          ([] ++ ([] ++ payload))) := by
      simp only [serializeBP, Option.isSome_none, Bool.false_and,
        Bool.false_eq_true, if_false]
      rw [if_neg (by
        simp only [HEADER_DATA_SIZE]
        omega)]
      simp [HEADER_DATA_SIZE, List.append_assoc]
    refine ⟨_, hser, ⟨{ h with headerSize := 32 }, none, none, payload⟩,
      ?_, by simp⟩
    have := parseData_layout { h with headerSize := 32 } [] [] payload
      hmagic hver hflags hpts hid (by norm_num) hty hres
      (by simp [hb1]) (by simp [hb0])
      (by simp [calculateHeaderSize, hb1, hb0, HEADER_DATA_SIZE])
    simpa [hb1, hb0] using this
  · obtain ⟨c, hcs⟩ : ∃ c, codecData = some c := by
      cases codecData with
      | none => simp at hcodec
      | some c => exact ⟨c, rfl⟩
    have hmn : metadata = none := by
      cases metadata with
      | none => rfl
      | some m => simp at hmeta
    subst hmn
    subst hcs
    have hcl : c.length = 24 := by
      simpa [HEADER_CODEC_DATA_SIZE] using hclen c rfl
    have hser : serializeBP bufferSize h none (some c) payload =
        some (serializeHeaderData { h with headerSize := 56 } ++
          ([] ++ (c ++ payload))) := by
      simp only [serializeBP, Option.isSome_none, Option.isSome_some,
        Bool.false_and, Bool.true_and, hb0, Bool.false_eq_true, if_false,
        if_true]
      rw [if_neg (by
        simp only [HEADER_DATA_SIZE, HEADER_CODEC_DATA_SIZE]
        omega)]
      simp [HEADER_DATA_SIZE, HEADER_CODEC_DATA_SIZE, List.append_assoc]
    refine ⟨_, hser, ⟨{ h with headerSize := 56 }, none, some c, payload⟩,
      ?_, by simp⟩
    have := parseData_layout { h with headerSize := 56 } [] c payload
      hmagic hver hflags hpts hid (by norm_num) hty hres
      (by simp [hb1]) (by simp [hb0, HEADER_CODEC_DATA_SIZE, hcl])
      (by simp [calculateHeaderSize, hb1, hb0, HEADER_DATA_SIZE,
        HEADER_CODEC_DATA_SIZE])
    simpa [hb1, hb0] using this
  · obtain ⟨m, hms⟩ : ∃ m, metadata = some m := by
      cases metadata with
      | none => simp at hmeta
      | some m => exact ⟨m, rfl⟩
    have hcn : codecData = none := by
      cases codecData with
      | none => rfl
      | some c => simp at hcodec
    subst hms
    subst hcn
    have hml : m.length = 64 := by
      simpa [HEADER_METADATA_SIZE] using hmlen m rfl
    have hser : serializeBP bufferSize h (some m) none payload =
        some (serializeHeaderData { h with headerSize := 96 } ++
          (m ++ ([] ++ payload))) := by
      simp only [serializeBP, Option.isSome_none, Option.isSome_some,
        Bool.false_and, Bool.true_and, hb1, Bool.false_eq_true, if_false,
        if_true]
      rw [if_neg (by
        simp only [HEADER_DATA_SIZE, HEADER_METADATA_SIZE]
        omega)]
      simp [HEADER_DATA_SIZE, HEADER_METADATA_SIZE, List.append_assoc]
    refine ⟨_, hser, ⟨{ h with headerSize := 96 }, some m, none, payload⟩,
      ?_, by simp⟩
    have := parseData_layout { h with headerSize := 96 } m [] payload
      hmagic hver hflags hpts hid (by norm_num) hty hres
      (by simp [hb1, HEADER_METADATA_SIZE, hml]) (by simp [hb0])
      (by simp [calculateHeaderSize, hb1, hb0, HEADER_DATA_SIZE,
        HEADER_METADATA_SIZE])
    simpa [hb1, hb0] using this
  · obtain ⟨m, hms⟩ : ∃ m, metadata = some m := by
      cases metadata with
      | none => simp at hmeta
      | some m => exact ⟨m, rfl⟩
    obtain ⟨c, hcs⟩ : ∃ c, codecData = some c := by
      cases codecData with
      | none => simp at hcodec
      | some c => exact ⟨c, rfl⟩
    subst hms
    subst hcs
    have hml : m.length = 64 := by
      simpa [HEADER_METADATA_SIZE] using hmlen m rfl
    have hcl : c.length = 24 := by
      simpa [HEADER_CODEC_DATA_SIZE] using hclen c rfl
    have hser : serializeBP bufferSize h (some m) (some c) payload =
        some (serializeHeaderData { h with headerSize := 120 } ++
          (m ++ (c ++ payload))) := by
      simp only [serializeBP, Option.isSome_some, Bool.true_and, hb1, hb0,
        if_true]
      rw [if_neg (by
        simp only [HEADER_DATA_SIZE, HEADER_METADATA_SIZE,
          HEADER_CODEC_DATA_SIZE]
        omega)]
      simp [HEADER_DATA_SIZE, HEADER_METADATA_SIZE, HEADER_CODEC_DATA_SIZE,
        List.append_assoc]
    refine ⟨_, hser, ⟨{ h with headerSize := 120 }, some m, some c, payload⟩,
      ?_, by simp⟩
    have := parseData_layout { h with headerSize := 120 } m c payload
      hmagic hver hflags hpts hid (by norm_num) hty hres
      (by simp [hb1, HEADER_METADATA_SIZE, hml])
      (by simp [hb0, HEADER_CODEC_DATA_SIZE, hcl])
      (by simp [calculateHeaderSize, hb1, hb0, HEADER_DATA_SIZE,
        HEADER_METADATA_SIZE, HEADER_CODEC_DATA_SIZE])
    simpa [hb1, hb0] using this

/-- C9 amended, witness: a header with the protocol magic, no optional
blocks and a one-byte payload round-trips through serialize and
parse_data. -/
theorem serialize_parse_roundtrip_witness :
    ∃ buf, serializeBP 33 ⟨PROTOCOL_MAGIC, 0, 0, 0, 1, 0, 1, 0⟩
        none none [7] = some buf ∧
      ∃ r, parseData (some buf) = some r ∧
        r.header.magic = PROTOCOL_MAGIC ∧ r.header.version = 1 ∧
        r.header.ptype = 1 ∧ r.header.flags = 0 ∧
        r.header.pts = 0 ∧ r.header.id = 0 ∧
        r.metadata = none ∧ r.codecData = none ∧
        r.payload = [7] :=
  serialize_parse_roundtrip ⟨PROTOCOL_MAGIC, 0, 0, 0, 1, 0, 1, 0⟩
    none none [7] 33 rfl rfl (by norm_num [PROTOCOL_MAGIC]) (by norm_num)
    (by norm_num) (by norm_num) (by norm_num) (by decide) (by decide)
    (fun m hm => nomatch hm) (fun c hc => nomatch hc) (by decide)

/-- C9 counterexample: the claim as stated quantifies over every header
whose flags match the supplied blocks, without requiring the protocol
magic; a header with magic 0 serializes fine, but parse_data rejects the
buffer (valid = false), so the round trip does not recover anything. -/
theorem roundtrip_fails_on_bad_magic :
    (serializeBP 32 ⟨0, 0, 0, 0, 1, 0, 1, 0⟩ none none []).isSome = true ∧
    parseData (serializeBP 32 ⟨0, 0, 0, 0, 1, 0, 1, 0⟩ none none []) =
      none := by
  decide

/-- The validate_header checks, spelled out. -/
theorem validateHeader_eq_true (hh : HeaderData) (n : Nat) :
    validateHeader hh n = true ↔
      (hh.magic = PROTOCOL_MAGIC ∧ hh.version = PROTOCOL_VERSION ∧
       hh.headerSize = calculateHeaderSize hh.flags ∧ hh.headerSize ≤ n) := by
  simp [validateHeader, and_assoc]

/-- Failure of validate_header is one of its four checks failing. -/
theorem validateHeader_eq_false (hh : HeaderData) (n : Nat) :
    validateHeader hh n = false ↔
      (hh.magic ≠ PROTOCOL_MAGIC ∨ hh.version ≠ PROTOCOL_VERSION ∨
       hh.headerSize ≠ calculateHeaderSize hh.flags ∨ n < hh.headerSize) := by
  rw [← Bool.not_eq_true, validateHeader_eq_true]
  rw [not_and_or, not_and_or, not_and_or, Nat.not_le]

/-- C10: parse_data is invalid exactly when the pointer is null, the size
is below the fixed header, the magic or version is wrong, the declared
header_size differs from calculate_header_size(flags), the total size is
below header_size, or a flagged optional block does not fit in the
remaining bytes; otherwise it is valid with payload_size equal to the size
minus the fixed header and all flagged blocks. -/
theorem parse_data_validity (data : Option (List Nat)) :
    (parseData data = none ↔
      data = none ∨
      ∃ bs, data = some bs ∧
        (bs.length < HEADER_DATA_SIZE ∨
         (parseHeaderData bs).magic ≠ PROTOCOL_MAGIC ∨
         (parseHeaderData bs).version ≠ PROTOCOL_VERSION ∨
         (parseHeaderData bs).headerSize ≠
           calculateHeaderSize (parseHeaderData bs).flags ∨
         bs.length < (parseHeaderData bs).headerSize ∨
         ((parseHeaderData bs).flags.testBit 1 = true ∧
           bs.length - HEADER_DATA_SIZE < HEADER_METADATA_SIZE) ∨
         ((parseHeaderData bs).flags.testBit 0 = true ∧
           bs.length - HEADER_DATA_SIZE -
             (if (parseHeaderData bs).flags.testBit 1 then
               HEADER_METADATA_SIZE else 0) < HEADER_CODEC_DATA_SIZE))) ∧
    (∀ r, parseData data = some r →
      ∃ bs, data = some bs ∧
        r.payload.length = bs.length - HEADER_DATA_SIZE -
          (if (parseHeaderData bs).flags.testBit 1 then
            HEADER_METADATA_SIZE else 0) -
          (if (parseHeaderData bs).flags.testBit 0 then
            HEADER_CODEC_DATA_SIZE else 0)) := by
  cases data with
  | none =>
    constructor
    · simp [parseData]
    · intro r hr
      simp [parseData] at hr
  | some bs =>
    by_cases hlen : bs.length < HEADER_DATA_SIZE
    · constructor
      · simp only [parseData, hlen, if_true, Option.some.injEq, ite_true]
        constructor
        · intro _
          exact Or.inr ⟨bs, rfl, Or.inl hlen⟩
        · intro _
          trivial
      · intro r hr
        simp [parseData, hlen] at hr
    · cases hval : validateHeader (parseHeaderData bs) bs.length
      · have hvf := (validateHeader_eq_false (parseHeaderData bs)
          bs.length).mp hval
        constructor
        · simp only [parseData, hlen, if_false, hval, Bool.not_false,
            if_true, ite_false, ite_true]
          constructor
          · intro _
            exact Or.inr ⟨bs, rfl, by tauto⟩
          · intro _
            trivial
        · intro r hr
          simp [parseData, hlen, hval] at hr
      · have hvt := (validateHeader_eq_true (parseHeaderData bs)
          bs.length).mp hval
        obtain ⟨hmg, hvv, hhs, hle⟩ := hvt
        rw [hhs] at hle
        have hcalc : calculateHeaderSize (parseHeaderData bs).flags =
            32 + (if (parseHeaderData bs).flags.testBit 1 then 64 else 0) +
              (if (parseHeaderData bs).flags.testBit 0 then 24 else 0) := rfl
        rw [hcalc] at hle
        cases hb1 : (parseHeaderData bs).flags.testBit 1 <;>
          cases hb0 : (parseHeaderData bs).flags.testBit 0 <;>
          rw [hb1, hb0] at hle <;> simp at hle
        · have heval : parseData (some bs) =
              some ⟨parseHeaderData bs, none, none,
                bs.drop HEADER_DATA_SIZE⟩ := by
            simp [parseData, hlen, hval, hb1, hb0]
          constructor
          · refine iff_of_false (by rw [heval]; simp) ?_
            intro hrhs
            rcases hrhs with h | ⟨bs2, hbs2, hdisj⟩
            · exact absurd h (by simp)
            · obtain rfl : bs2 = bs := (Option.some.inj hbs2).symm
              rcases hdisj with h | h | h | h | h | ⟨hB, h⟩ | ⟨hB, h⟩
              · exact hlen h
              · exact h hmg
              · exact h hvv
              · exact h hhs
              · rw [hhs, hcalc, hb1, hb0] at h
                simp at h
                omega
              · rw [hb1] at hB
                cases hB
              · rw [hb0] at hB
                cases hB
          · intro r hr
            rw [heval] at hr
            obtain rfl : (⟨parseHeaderData bs, none, none,
                bs.drop HEADER_DATA_SIZE⟩ : ParsedOk) = r :=
              Option.some.inj hr
            refine ⟨bs, rfl, ?_⟩
            simp [hb1, hb0, List.length_drop]
        · have hfitC : ¬ (List.drop HEADER_DATA_SIZE bs).length <
              HEADER_CODEC_DATA_SIZE := by
            simp only [List.length_drop, HEADER_DATA_SIZE,
              HEADER_CODEC_DATA_SIZE]
            omega
          have heval : parseData (some bs) =
              some ⟨parseHeaderData bs, none,
                some ((bs.drop HEADER_DATA_SIZE).take HEADER_CODEC_DATA_SIZE),
                (bs.drop HEADER_DATA_SIZE).drop HEADER_CODEC_DATA_SIZE⟩ := by
            simp [parseData, hlen, hval, hb1, hb0, hfitC]
            simp only [HEADER_DATA_SIZE, HEADER_CODEC_DATA_SIZE]
            omega
          constructor
          · refine iff_of_false (by rw [heval]; simp) ?_
            intro hrhs
            rcases hrhs with h | ⟨bs2, hbs2, hdisj⟩
            · exact absurd h (by simp)
            · obtain rfl : bs2 = bs := (Option.some.inj hbs2).symm
              rcases hdisj with h | h | h | h | h | ⟨hB, h⟩ | ⟨hB, h⟩
              · exact hlen h
              · exact h hmg
              · exact h hvv
              · exact h hhs
              · rw [hhs, hcalc, hb1, hb0] at h
                simp at h
                omega
              · rw [hb1] at hB
                cases hB
              · rw [hb1] at h
                simp [HEADER_DATA_SIZE, HEADER_CODEC_DATA_SIZE] at h
                omega
          · intro r hr
            rw [heval] at hr
            obtain rfl := Option.some.inj hr
            refine ⟨bs, rfl, ?_⟩
            simp [hb1, hb0, List.length_drop, HEADER_DATA_SIZE,
              HEADER_CODEC_DATA_SIZE]
            omega
        · have hfitM : ¬ (List.drop HEADER_DATA_SIZE bs).length <
              HEADER_METADATA_SIZE := by
            simp only [List.length_drop, HEADER_DATA_SIZE,
              HEADER_METADATA_SIZE]
            omega
          have heval : parseData (some bs) =
              some ⟨parseHeaderData bs,
                some ((bs.drop HEADER_DATA_SIZE).take HEADER_METADATA_SIZE),
                none,
                (bs.drop HEADER_DATA_SIZE).drop HEADER_METADATA_SIZE⟩ := by
            simp [parseData, hlen, hval, hb1, hb0, hfitM]
            simp only [HEADER_DATA_SIZE, HEADER_METADATA_SIZE]
            omega
          constructor
          · refine iff_of_false (by rw [heval]; simp) ?_
            intro hrhs
            rcases hrhs with h | ⟨bs2, hbs2, hdisj⟩
            · exact absurd h (by simp)
            · obtain rfl : bs2 = bs := (Option.some.inj hbs2).symm
              rcases hdisj with h | h | h | h | h | ⟨hB, h⟩ | ⟨hB, h⟩
              · exact hlen h
              · exact h hmg
              · exact h hvv
              · exact h hhs
              · rw [hhs, hcalc, hb1, hb0] at h
                simp at h
                omega
              · simp [HEADER_DATA_SIZE, HEADER_METADATA_SIZE] at h
                omega
              · rw [hb0] at hB
                cases hB
          · intro r hr
            rw [heval] at hr
            obtain rfl := Option.some.inj hr
            refine ⟨bs, rfl, ?_⟩
            simp [hb1, hb0, List.length_drop, HEADER_DATA_SIZE,
              HEADER_METADATA_SIZE]
            omega
        · have hfitM : ¬ (List.drop HEADER_DATA_SIZE bs).length <
              HEADER_METADATA_SIZE := by
            simp only [List.length_drop, HEADER_DATA_SIZE,
              HEADER_METADATA_SIZE]
            omega
          have hfitC : ¬ ((bs.drop HEADER_DATA_SIZE).drop
              HEADER_METADATA_SIZE).length < HEADER_CODEC_DATA_SIZE := by
            simp only [List.length_drop, HEADER_DATA_SIZE,
              HEADER_METADATA_SIZE, HEADER_CODEC_DATA_SIZE]
            omega
          have heval : parseData (some bs) =
              some ⟨parseHeaderData bs,
                some ((bs.drop HEADER_DATA_SIZE).take HEADER_METADATA_SIZE),
                some (((bs.drop HEADER_DATA_SIZE).drop
                  HEADER_METADATA_SIZE).take HEADER_CODEC_DATA_SIZE),
                ((bs.drop HEADER_DATA_SIZE).drop
                  HEADER_METADATA_SIZE).drop HEADER_CODEC_DATA_SIZE⟩ := by
            simp [parseData, hlen, hval, hb1, hb0, hfitM, hfitC]
            simp only [HEADER_DATA_SIZE, HEADER_METADATA_SIZE,
              HEADER_CODEC_DATA_SIZE]
            omega
          constructor
          · refine iff_of_false (by rw [heval]; simp) ?_
            intro hrhs
            rcases hrhs with h | ⟨bs2, hbs2, hdisj⟩
            · exact absurd h (by simp)
            · obtain rfl : bs2 = bs := (Option.some.inj hbs2).symm
              rcases hdisj with h | h | h | h | h | ⟨hB, h⟩ | ⟨hB, h⟩
              · exact hlen h
              · exact h hmg
              · exact h hvv
              · exact h hhs
              · rw [hhs, hcalc, hb1, hb0] at h
                simp at h
                omega
              · simp [HEADER_DATA_SIZE, HEADER_METADATA_SIZE] at h
                omega
              · rw [hb1] at h
                simp [HEADER_DATA_SIZE, HEADER_METADATA_SIZE,
                  HEADER_CODEC_DATA_SIZE] at h
                omega
          · intro r hr
            rw [heval] at hr
            obtain rfl := Option.some.inj hr
            refine ⟨bs, rfl, ?_⟩
            simp [hb1, hb0, List.length_drop, HEADER_DATA_SIZE,
              HEADER_METADATA_SIZE, HEADER_CODEC_DATA_SIZE]
            omega

/-- C10 witness: a 3-byte buffer is rejected (size below the fixed
header). -/
theorem parse_data_validity_witness : parseData (some [1, 2, 3]) = none :=
  (parse_data_validity (some [1, 2, 3])).1.mpr
    (Or.inr ⟨[1, 2, 3], rfl, Or.inl (by decide)⟩)

end MoqCpp
